import Mathlib

/-!
Verification of the preemptive round-robin scheduler in
`src/kernel/src/multitask/mod.rs` of the rustos kernel.

The module keeps three parallel static tables indexed by slot number
(`CONTEXTS`, `START_INFO`, `TASK_STACKS`) plus the index `CURRENT_TASK`.
A timer interrupt saves the interrupted context into the current slot,
searches the table round-robin for the next occupied-and-ready slot, and
copies that slot's saved context back into the in-place context record.

The shallow embedding below models machine addresses and register values
as `Nat`, the static tables as functions from slot index to optional
entries, and the per-slot stack memory as a word-addressed map.  Code
addresses that the Rust code obtains from the linker (the address of
`task_entry_trampoline`, of the `TASK_STACKS` array, and the live
`CS`/`SS` selector values) are bundled in a `MachineEnv` parameter.
-/

/-! ## Constants from the source -/

/-- Constant `MAX_TASK` of the source: number of slots in every table. -/
def MAX_TASK : Nat := 200

/-- Constant `TASK_STACK_SIZE`: bytes in each slot's private stack. -/
def TASK_STACK_SIZE : Nat := 4 * 1024

/-- Constant `SAVED_GPR_BYTES = 15 * 8`. -/
def SAVED_GPR_BYTES : Nat := 15 * 8

/-- Constant `SAVED_XMM_BYTES = 16 * 16`. -/
def SAVED_XMM_BYTES : Nat := 16 * 16

/-- Constant `CONTEXT_PREFIX_BYTES = SAVED_GPR_BYTES + SAVED_XMM_BYTES` (0x178). -/
def CONTEXT_PREFIX_BYTES : Nat := SAVED_GPR_BYTES + SAVED_XMM_BYTES

/-- Size in bytes of the `InterruptContext` record: the source asserts
`mem::size_of::<InterruptContext>() = 0x1a0` (prefix plus the 0x28-byte
hardware frame, 16-aligned). -/
def CONTEXT_RECORD_BYTES : Nat := 0x1a0

/-- Alignment of the `InterruptContext` record: `repr(C, align(16))`. -/
def CONTEXT_RECORD_ALIGN : Nat := 16

/-! ## Data model -/

/-- Rust `x86_64::structures::idt::InterruptStackFrameValue`: the hardware
interrupt return frame.  Field order matches the x86-64 interrupt frame. -/
structure InterruptStackFrameValue where
  instruction_pointer : Nat
  code_segment : Nat
  cpu_flags : Nat
  stack_pointer : Nat
  stack_segment : Nat
deriving DecidableEq

/-- Struct `InterruptContext` of the source: all general-purpose registers,
the sixteen 16-byte xmm registers, then the hardware return frame. -/
structure InterruptContext where
  rax : Nat
  rbx : Nat
  rcx : Nat
  rdx : Nat
  rsi : Nat
  rdi : Nat
  rbp : Nat
  r8 : Nat
  r9 : Nat
  r10 : Nat
  r11 : Nat
  r12 : Nat
  r13 : Nat
  r14 : Nat
  r15 : Nat
  xmm : List (List Nat)
  frame : InterruptStackFrameValue
deriving DecidableEq

/-- Function `InterruptContext::zeroed`: `mem::zeroed()`, every byte 0. -/
def InterruptContext.zeroed : InterruptContext :=
  { rax := 0, rbx := 0, rcx := 0, rdx := 0, rsi := 0, rdi := 0, rbp := 0
  , r8 := 0, r9 := 0, r10 := 0, r11 := 0, r12 := 0, r13 := 0, r14 := 0, r15 := 0
  , xmm := List.replicate 16 (List.replicate 16 0)
  , frame := { instruction_pointer := 0, code_segment := 0, cpu_flags := 0
             , stack_pointer := 0, stack_segment := 0 } }

/-- Struct `TaskContext` of the source: a saved register file plus the
`ready` flag. -/
structure TaskContext where
  regs : InterruptContext
  ready : Bool
deriving DecidableEq

/-- Function `TaskContext::empty`: zeroed registers, not ready. -/
def TaskContext.empty : TaskContext :=
  { regs := InterruptContext.zeroed, ready := false }

/-- Constant `RFlags::INTERRUPT_FLAG` of the x86_64 crate: bit 9. -/
def INTERRUPT_FLAG : Nat := 1 <<< 9

/-- Function `initial_task_rflags` of the source:
`RESERVED_BIT_1 | RFlags::INTERRUPT_FLAG`. -/
def initial_task_rflags : Nat := (1 <<< 1) ||| INTERRUPT_FLAG

/-- Function `TaskContext::for_entry`: an empty context whose hardware
frame resumes at `entry_rip` on stack `stack_top` with interrupts enabled,
marked ready. -/
def TaskContext.for_entry (entry_rip stack_top cs ss : Nat) : TaskContext :=
  { regs := { InterruptContext.zeroed with
      frame := { instruction_pointer := entry_rip, code_segment := cs
               , cpu_flags := initial_task_rflags, stack_pointer := stack_top
               , stack_segment := ss } }
  , ready := true }

/-- Struct `TaskStart` of the source: entry function (modelled as its code
address) and the numeric task id. -/
structure TaskStart where
  entry : Nat
  id : Nat
deriving DecidableEq

/-- Struct `Thread` of the source: the user-facing handle.  `slot` is the
`Cell<Option<usize>>` remembering the registered slot, if any. -/
structure Thread where
  entry : Nat
  id : Nat
  slot : Option Nat
deriving DecidableEq

/-- Addresses and selector values that the Rust code reads from the
machine rather than computing: the base address of the static
`TASK_STACKS` array, the address of `task_entry_trampoline`, and the
current `CS`/`SS` selector values. -/
structure MachineEnv where
  stacksBase : Nat
  trampolineAddr : Nat
  cs : Nat
  ss : Nat
deriving DecidableEq

/-- Pointwise update of a table modelled as a function. -/
def updFn {α : Type} (f : Nat → α) (k : Nat) (v : α) : Nat → α :=
  fun i => if i = k then v else f i

/-- The mutable static state of the module: `CONTEXTS`, `START_INFO`,
`CURRENT_TASK`, and the contents of the `TASK_STACKS` memory (a map from
64-bit-word address to stored value). -/
structure KernelState where
  contexts : Nat → Option TaskContext
  start_info : Nat → Option TaskStart
  current_task : Nat
  stackMem : Nat → Nat

/-- State of the statics at boot: `CONTEXTS` and `START_INFO` initialise
to all `None`, `CURRENT_TASK` to 0, and `TASK_STACKS` to all zero bytes. -/
def bootState : KernelState :=
  { contexts := fun _ => none, start_info := fun _ => none
  , current_task := 0, stackMem := fun _ => 0 }

/-! ## Operations translated from the source -/

/-- Readiness test used by the dispatch search: slot `i` is a candidate
when `CONTEXTS[i]` is `Some(ctx)` with `ctx.ready`. -/
def isReadyB (s : KernelState) (i : Nat) : Bool :=
  match s.contexts i with
  | some ctx => ctx.ready
  | none => false

/-- Function `find_next_task_index` of the source: scan offsets
`1..=MAX_TASK` from `current`, returning the first index
`(current + offset) % MAX_TASK` whose slot is occupied and ready. -/
def find_next_task_index (s : KernelState) (current : Nat) : Option Nat :=
  ((List.range' 1 MAX_TASK).find? fun offset =>
      isReadyB s ((current + offset) % MAX_TASK)).map
    fun offset => (current + offset) % MAX_TASK

/-- Address of the base of slot `slot`'s private stack:
`TASK_STACKS[slot].as_ptr()`. -/
def taskStackBase (env : MachineEnv) (slot : Nat) : Nat :=
  env.stacksBase + slot * TASK_STACK_SIZE

/-- Function `init_task_stack` of the source: take the address one past
the slot's stack, align it down to 16 (`top &= !0xF`), step down 8 bytes,
write a zero return-address word there, and return that address. -/
def init_task_stack (env : MachineEnv) (s : KernelState) (slot : Nat) :
    Nat × KernelState :=
  let base := taskStackBase env slot
  let top0 := base + TASK_STACK_SIZE
  let top1 := top0 - top0 % 16
  let top := top1 - 8
  (top, { s with stackMem := updFn s.stackMem top 0 })

/-- Function `allocate_slot` of the source: linearly scan slots
`1..MAX_TASK` for the first unoccupied one; install a fresh
`TaskContext::for_entry` aimed at the entry trampoline on that slot's
private stack, record the start info, and return the slot index.  `None`
when every slot is occupied. -/
def allocate_slot (env : MachineEnv) (s : KernelState) (entry id : Nat) :
    Option (Nat × KernelState) :=
  match (List.range' 1 (MAX_TASK - 1)).find? fun slot =>
      (s.contexts slot).isNone with
  | none => none
  | some slot =>
    let p := init_task_stack env s slot
    let ctx := TaskContext.for_entry env.trampolineAddr p.1 env.cs env.ss
    some (slot,
      { p.2 with contexts := updFn p.2.contexts slot (some ctx)
               , start_info := updFn p.2.start_info slot (some ⟨entry, id⟩) })

/-- Function `Thread::new`: pure construction, not yet registered. -/
def Thread.new (entry id : Nat) : Thread :=
  { entry := entry, id := id, slot := none }

/-- Method `Thread::start` (body runs with interrupts masked): a no-op
when already registered; otherwise allocate a slot and record it in the
handle.  The source panics (`expect("No free task slot")`) when
`allocate_slot` fails; that fatal outcome is modelled as `none`. -/
def Thread.start (env : MachineEnv) (t : Thread) (s : KernelState) :
    Option (Thread × KernelState) :=
  match t.slot with
  | some _ => some (t, s)
  | none =>
    match allocate_slot env s t.entry t.id with
    | none => none
    | some (slot, s2) => some ({ t with slot := some slot }, s2)

/-- Method `Thread::stop` (body runs with interrupts masked): when
registered, clear the handle's slot cell and empty both the slot's
context and start-info entries; otherwise a no-op. -/
def Thread.stop (t : Thread) (s : KernelState) : Thread × KernelState :=
  match t.slot with
  | none => (t, s)
  | some slot =>
    ({ t with slot := none },
     { s with contexts := updFn s.contexts slot none
            , start_info := updFn s.start_info slot none })

/-- Function `exit_current_task` (the entry trampoline's cleanup): with
interrupts masked, empty the current slot's context and start info.  The
source then halts in a `loop { hlt() }`; the state at that halt is the
function's result here. -/
def exit_current_task (s : KernelState) : KernelState :=
  { s with contexts := updFn s.contexts s.current_task none
         , start_info := updFn s.start_info s.current_task none }

/-- Function `init` of the source: set `CURRENT_TASK` to 0, occupy slot 0
with `TaskContext::empty()`, and clear slot 0's start info.  (The
follow-up call `pit::start` only programs the external timer.) -/
def init (s : KernelState) : KernelState :=
  { s with current_task := 0
         , contexts := updFn s.contexts 0 (some TaskContext.empty)
         , start_info := updFn s.start_info 0 none }

/-- First half of `timer_interrupt_dispatch`: when the current slot is
occupied, overwrite its saved registers with the just-saved in-place
context record and raise its ready flag. -/
def saveCurrent (s : KernelState) (context : InterruptContext) : KernelState :=
  match s.contexts s.current_task with
  | some _ =>
    let saved : TaskContext := { regs := context, ready := true }
    { s with contexts := updFn s.contexts s.current_task (some saved) }
  | none => s

/-- Function `timer_interrupt_dispatch` of the source: persist the
outgoing context, search for the next ready slot starting after
`CURRENT_TASK`, and on success retarget `CURRENT_TASK` and overwrite the
in-place context record with the chosen slot's saved registers.  The
returned pair is the state of the statics and the in-place record when
the handler returns (the trailing `send_eoi` only acknowledges the
interrupt controller). -/
def timer_interrupt_dispatch (s : KernelState) (context : InterruptContext) :
    KernelState × InterruptContext :=
  let s1 := saveCurrent s context
  match find_next_task_index s1 s.current_task with
  | some next_idx =>
    match s1.contexts next_idx with
    | some next => ({ s1 with current_task := next_idx }, next.regs)
    | none => ({ s1 with current_task := next_idx }, context)
  | none => (s1, context)

/-- Scheduling decision of one dispatch: the `find_next_task_index`
result computed on the state with the outgoing context persisted. -/
def dispatchDecision (s : KernelState) (context : InterruptContext) : Option Nat :=
  find_next_task_index (saveCurrent s context) s.current_task

/-- Decisions of `n` successive timer interrupts. -/
def dispatchDecisions (s : KernelState) (context : InterruptContext) :
    Nat → List (Option Nat)
  | 0 => []
  | n + 1 =>
    dispatchDecision s context ::
      (let p := timer_interrupt_dispatch s context
       dispatchDecisions p.1 p.2 n)

/-- State and in-place record after `n` successive timer interrupts. -/
def dispatchIter (s : KernelState) (context : InterruptContext) :
    Nat → KernelState × InterruptContext
  | 0 => (s, context)
  | n + 1 =>
    let p := timer_interrupt_dispatch s context
    dispatchIter p.1 p.2 n

/-! ## Round-robin selection, pure form

The dispatch search depends on the state only through the readiness
predicate, so its combinatorics are developed over an arbitrary
`P : Nat → Bool`. -/

/-- Offsets `j < N` (counting from just past `c`) whose slot
`(c + 1 + j) % N` is ready: the rotation order of the ready slots as seen
from current slot `c`. -/
def readyOffsets (N : Nat) (P : Nat → Bool) (c : Nat) : List Nat :=
  (List.range N).filter fun j => P ((c + 1 + j) % N)

/-- Pure form of `find_next_task_index` over a readiness predicate. -/
def rrNext (N : Nat) (P : Nat → Bool) (c : Nat) : Option Nat :=
  ((List.range' 1 N).find? fun offset => P ((c + offset) % N)).map
    fun offset => (c + offset) % N

/-- Current slot after one dispatch decision: the found slot, else `c`. -/
def rrStep (N : Nat) (P : Nat → Bool) (c : Nat) : Nat :=
  (rrNext N P c).getD c

/-- Decisions of `m` successive dispatches, pure form. -/
def rrDecisions (N : Nat) (P : Nat → Bool) (c : Nat) : Nat → List (Option Nat)
  | 0 => []
  | m + 1 => rrNext N P c :: rrDecisions N P (rrStep N P c) m

/-- Number of ready slots of the table. -/
def readyCount (s : KernelState) : Nat :=
  ((List.range MAX_TASK).filter fun i => isReadyB s i).length

/-- Stability of the ready-slot set under a dispatch: the save step
raises the current slot's ready flag, so the set is unchanged exactly
when the current slot is empty or already ready. -/
def ReadySetStable (s : KernelState) : Prop :=
  s.contexts s.current_task = none ∨ isReadyB s s.current_task = true

/-! ## Validation of a saved stack handle, as the spec words it -/

/-- Modelled from the spec: validation of a saved stack handle —
"non-null; correctly aligned for a Context Record; for any slot except
slot 0, the record's address range must lie entirely within that slot's
private stack bounds".  The dispatch code in
`src/kernel/src/multitask/mod.rs` contains no such check (its sibling
variant `src/kernel/src/multitask.rs` does); this definition follows the
spec's words so the code's behaviour can be compared against it. -/
def specValidHandle (env : MachineEnv) (slot sp : Nat) : Bool :=
  decide (sp ≠ 0) && decide (sp % CONTEXT_RECORD_ALIGN = 0) &&
    (decide (slot = 0) ||
      (decide (taskStackBase env slot ≤ sp) &&
       decide (sp + CONTEXT_RECORD_BYTES ≤ taskStackBase env slot + TASK_STACK_SIZE)))

/-! ## Concrete scenario states -/

/-- Sample machine parameters for concrete runs: a 2 MiB stacks base, an
arbitrary code address for the trampoline, and flat-model selectors. -/
def env0 : MachineEnv :=
  { stacksBase := 0x200000, trampolineAddr := 0x1000, cs := 8, ss := 16 }

/-- Start one fresh handle per id in order, keeping the state (a failed
start, which the kernel would turn into a panic, keeps the old state). -/
def startAll (env : MachineEnv) (ids : List Nat) (s : KernelState) : KernelState :=
  ids.foldl
    (fun st id =>
      match Thread.start env (Thread.new 0 id) st with
      | some p => p.2
      | none => st) s

/-- Scenario of the spec's round-robin test: tasks with ids 1, 2, 3
started into slots 1, 2, 3 after `init`, with `current_task = 0`. -/
def c2State : KernelState := startAll env0 [1, 2, 3] (init bootState)

/-- Ready slot entry holding an all-zero saved register file, hence a
null saved frame stack pointer. -/
def readyZeroTask : TaskContext :=
  { regs := InterruptContext.zeroed, ready := true }

/-- State whose slot 1 is occupied and ready but holds a null saved
frame stack pointer (the zeroed record): the spec's validation rejects
its handle. -/
def c1State : KernelState :=
  { init bootState with
    contexts := updFn (init bootState).contexts 1 (some readyZeroTask) }

/-- Scenario with one task started after `init`: slot 1 freshly
populated by `start()`. -/
def c9State : KernelState := startAll env0 [1] (init bootState)

/-- Iterated fresh starts that also collect the allocated slot indices;
`none` as soon as one start fails fatally. -/
def startSlots (env : MachineEnv) : Nat → KernelState → Option (List Nat × KernelState)
  | 0, s => some ([], s)
  | n + 1, s =>
    match Thread.start env (Thread.new 0 0) s with
    | none => none
    | some (t, s1) =>
      match t.slot with
      | none => none
      | some i =>
        match startSlots env n s1 with
        | none => none
        | some (l, s2) => some (i :: l, s2)

/-- Small two-task state used to witness the fairness theorem: slots 0
and 1 occupied and ready, current slot 0. -/
def wPairState : KernelState :=
  { contexts := updFn (updFn (fun _ => none) 0 (some readyZeroTask)) 1 (some readyZeroTask)
  , start_info := fun _ => none, current_task := 0, stackMem := fun _ => 0 }

/-! ## Basic helper lemmas -/

theorem find?_eq_head_filter {α : Type} (p : α → Bool) :
    ∀ l : List α, l.find? p = (l.filter p).head? := by
  intro l
  induction l with
  | nil => rfl
  | cons a l ih =>
    by_cases h : p a
    · rw [List.find?_cons_of_pos _ h, List.filter_cons, if_pos h]
      rfl
    · rw [List.find?_cons_of_neg _ h, List.filter_cons, if_neg h, ih]

theorem find?_map_list {α β : Type} (f : α → β) (p : β → Bool) :
    ∀ l : List α, (l.map f).find? p = (l.find? fun a => p (f a)).map f := by
  intro l
  induction l with
  | nil => rfl
  | cons a l ih =>
    rw [List.map_cons]
    by_cases h : p (f a)
    · have hr : List.find? (fun a => p (f a)) (a :: l) = some a :=
        List.find?_cons_of_pos _ h
      rw [List.find?_cons_of_pos _ h, hr]
      rfl
    · have hr : List.find? (fun a => p (f a)) (a :: l) = List.find? (fun a => p (f a)) l :=
        List.find?_cons_of_neg _ h
      rw [List.find?_cons_of_neg _ h, hr, ih]

theorem find?_range'_eq_some (p : Nat → Bool) :
    ∀ (n a j : Nat), ((List.range' a n).find? p = some j ↔
      (a ≤ j ∧ j < a + n ∧ p j = true ∧ ∀ t, a ≤ t → t < j → p t = false)) := by
  intro n
  induction n with
  | zero =>
    intro a j
    simp only [List.range', List.find?_nil]
    constructor
    · intro h; cases h
    · rintro ⟨h1, h2, -⟩; omega
  | succ n ih =>
    intro a j
    rw [List.range'_succ]
    by_cases h : p a
    · rw [List.find?_cons_of_pos _ h]
      constructor
      · rintro ⟨rfl⟩
        exact ⟨Nat.le_refl _, by omega, h, fun t h1 h2 => absurd h1 (by omega)⟩
      · rintro ⟨h1, h2, h3, h4⟩
        rcases Nat.eq_or_lt_of_le h1 with rfl | hlt
        · rfl
        · exact absurd h (by simp [h4 a (Nat.le_refl _) hlt])
    · rw [List.find?_cons_of_neg _ h, ih]
      constructor
      · rintro ⟨h1, h2, h3, h4⟩
        refine ⟨by omega, by omega, h3, fun t ht1 ht2 => ?_⟩
        rcases Nat.eq_or_lt_of_le ht1 with rfl | hlt
        · exact Bool.eq_false_iff.mpr h
        · exact h4 t hlt ht2
      · rintro ⟨h1, h2, h3, h4⟩
        have hja : j ≠ a := by
          rintro rfl; exact h (by simp [h3])
        exact ⟨by omega, by omega, h3, fun t ht1 ht2 => h4 t (by omega) ht2⟩

theorem find?_range'_eq_none (p : Nat → Bool) (n a : Nat) :
    ((List.range' a n).find? p = none ↔ ∀ t, a ≤ t → t < a + n → p t = false) := by
  rw [List.find?_eq_none]
  constructor
  · intro h t h1 h2
    have : t ∈ List.range' a n := by
      rw [List.mem_range']
      exact ⟨t - a, by omega, by omega⟩
    simpa using h t this
  · intro h x hx
    rw [List.mem_range'] at hx
    obtain ⟨i, hi, rfl⟩ := hx
    have hfalse := h (a + 1 * i) (by omega) (by omega)
    simpa using hfalse

/-! ## Lemmas about the pure round-robin search -/

theorem rrNext_eq_head (N : Nat) (P : Nat → Bool) (c : Nat) :
    rrNext N P c = (readyOffsets N P c).head?.map (fun j => (c + 1 + j) % N) := by
  unfold rrNext readyOffsets
  rw [List.range'_eq_map_range, find?_map_list, Option.map_map]
  have hpred : (fun j => P ((c + (1 + j)) % N)) = (fun j => P ((c + 1 + j) % N)) := by
    funext j
    rw [← Nat.add_assoc]
  rw [hpred, find?_eq_head_filter]
  cases ((List.range N).filter fun j => P ((c + 1 + j) % N)).head? with
  | none => rfl
  | some j =>
    show some ((c + (1 + j)) % N) = some ((c + 1 + j) % N)
    rw [← Nat.add_assoc]

theorem readyOffsets_sorted (N : Nat) (P : Nat → Bool) (c : Nat) :
    (readyOffsets N P c).Sorted (· < ·) :=
  (List.pairwise_lt_range N).filter _

theorem readyOffsets_nodup (N : Nat) (P : Nat → Bool) (c : Nat) :
    (readyOffsets N P c).Nodup :=
  (readyOffsets_sorted N P c).nodup

theorem mem_readyOffsets (N : Nat) (P : Nat → Bool) (c j : Nat) :
    j ∈ readyOffsets N P c ↔ j < N ∧ P ((c + 1 + j) % N) = true := by
  unfold readyOffsets
  rw [List.mem_filter, List.mem_range]

theorem not_ready_of_lt_head (N : Nat) (P : Nat → Bool) (c j₀ t : Nat)
    (rest : List Nat) (h : readyOffsets N P c = j₀ :: rest)
    (ht : t < j₀) : P ((c + 1 + t) % N) = false := by
  by_contra hP
  have hmem : t ∈ readyOffsets N P c := by
    rw [mem_readyOffsets]
    have hj₀ : j₀ ∈ readyOffsets N P c := by rw [h]; exact List.mem_cons_self _ _
    rw [mem_readyOffsets] at hj₀
    refine ⟨by omega, ?_⟩
    revert hP
    cases P ((c + 1 + t) % N) <;> simp
  rw [h] at hmem
  have hsorted := readyOffsets_sorted N P c
  rw [h, List.sorted_cons] at hsorted
  rcases List.mem_cons.mp hmem with rfl | hmemr
  · omega
  · exact absurd (hsorted.1 t hmemr) (by omega)

theorem readyOffsets_shift (N : Nat) (P : Nat → Bool) (c j₀ : Nat) (rest : List Nat)
    (hc : c < N) (h : readyOffsets N P c = j₀ :: rest) :
    readyOffsets N P ((c + 1 + j₀) % N) =
      rest.map (fun j => j - (j₀ + 1)) ++ [N - 1] := by
  have hN : 0 < N := by omega
  have hj₀ : j₀ < N ∧ P ((c + 1 + j₀) % N) = true := by
    have hm : j₀ ∈ readyOffsets N P c := by rw [h]; exact List.mem_cons_self _ _
    exact (mem_readyOffsets N P c j₀).mp hm
  have hrest_mem : ∀ j ∈ rest, j < N ∧ P ((c + 1 + j) % N) = true := by
    intro j hj
    have hm : j ∈ readyOffsets N P c := by rw [h]; exact List.mem_cons_of_mem _ hj
    exact (mem_readyOffsets N P c j).mp hm
  have hs := readyOffsets_sorted N P c
  rw [h, List.sorted_cons] at hs
  obtain ⟨hgt, hrest_sorted⟩ := hs
  have key : ∀ x, ((c + 1 + j₀) % N + 1 + x) % N = (c + 1 + (j₀ + 1 + x)) % N := by
    intro x
    rw [Nat.add_assoc ((c + 1 + j₀) % N) 1 x, Nat.mod_add_mod]
    congr 1
    omega
  have hmem : ∀ x, x ∈ readyOffsets N P ((c + 1 + j₀) % N) ↔
      x ∈ rest.map (fun j => j - (j₀ + 1)) ++ [N - 1] := by
    intro x
    rw [mem_readyOffsets, List.mem_append, List.mem_map, List.mem_singleton]
    constructor
    · rintro ⟨hx, hP⟩
      rw [key] at hP
      by_cases hxN : x = N - 1
      · right; exact hxN
      · left
        by_cases ht : j₀ + 1 + x < N
        · have htm : (j₀ + 1 + x) ∈ readyOffsets N P c := by
            rw [mem_readyOffsets]; exact ⟨ht, hP⟩
          rw [h] at htm
          rcases List.mem_cons.mp htm with heq | hre
          · exact absurd heq (by omega)
          · exact ⟨j₀ + 1 + x, hre, by omega⟩
        · exfalso
          have ht2 : j₀ + 1 + x - N < j₀ := by omega
          have hmod : (c + 1 + (j₀ + 1 + x)) % N = (c + 1 + (j₀ + 1 + x - N)) % N := by
            have hsplit : c + 1 + (j₀ + 1 + x) = c + 1 + (j₀ + 1 + x - N) + N := by omega
            rw [hsplit, Nat.add_mod_right]
          rw [hmod] at hP
          have hoff := not_ready_of_lt_head N P c j₀ (j₀ + 1 + x - N) rest h ht2
          rw [hoff] at hP
          cases hP
    · intro hx
      rcases hx with ⟨j, hj, rfl⟩ | rfl
      · have hjf := hrest_mem j hj
        have hjgt : j₀ < j := hgt j hj
        refine ⟨by omega, ?_⟩
        rw [key]
        have hback : j₀ + 1 + (j - (j₀ + 1)) = j := by omega
        rw [hback]
        exact hjf.2
      · refine ⟨by omega, ?_⟩
        rw [key]
        have hwrap : (c + 1 + (j₀ + 1 + (N - 1))) % N = (c + 1 + j₀) % N := by
          have hsplit : c + 1 + (j₀ + 1 + (N - 1)) = c + 1 + j₀ + N := by omega
          rw [hsplit, Nat.add_mod_right]
        rw [hwrap]
        exact hj₀.2
  have hsortR : (rest.map (fun j => j - (j₀ + 1)) ++ [N - 1]).Pairwise (· < ·) := by
    rw [List.pairwise_append]
    refine ⟨?_, List.pairwise_singleton _ _, ?_⟩
    · rw [List.pairwise_map]
      refine hrest_sorted.imp_of_mem ?_
      intro a b ha hb hab
      have hga : j₀ < a := hgt a ha
      omega
    · intro a ha b hb
      rw [List.mem_map] at ha
      obtain ⟨j, hj, rfl⟩ := ha
      rw [List.mem_singleton] at hb
      subst hb
      have hjf := hrest_mem j hj
      have hjgt : j₀ < j := hgt j hj
      omega
  have hnodL := readyOffsets_nodup N P ((c + 1 + j₀) % N)
  have hnodR : (rest.map (fun j => j - (j₀ + 1)) ++ [N - 1]).Nodup :=
    List.Sorted.nodup hsortR
  have hperm := (List.perm_ext_iff_of_nodup hnodL hnodR).mpr hmem
  have hL : (readyOffsets N P ((c + 1 + j₀) % N)).Sorted (· ≤ ·) :=
    List.Pairwise.imp (fun hab => le_of_lt hab) (readyOffsets_sorted N P ((c + 1 + j₀) % N))
  have hR : (rest.map (fun j => j - (j₀ + 1)) ++ [N - 1]).Sorted (· ≤ ·) :=
    List.Pairwise.imp (fun hab => le_of_lt hab) hsortR
  exact List.eq_of_perm_of_sorted hperm hL hR

theorem rrDecisions_eq_take (N : Nat) (P : Nat → Bool) :
    ∀ (m c : Nat), c < N → m ≤ (readyOffsets N P c).length →
      rrDecisions N P c m =
        ((readyOffsets N P c).take m).map (fun j => some ((c + 1 + j) % N)) := by
  intro m
  induction m with
  | zero =>
    intro c hc hm
    simp [rrDecisions]
  | succ m ih =>
    intro c hc hm
    have hN : 0 < N := by omega
    have hne : readyOffsets N P c ≠ [] := by
      intro hnil
      rw [hnil] at hm
      simp at hm
    obtain ⟨j₀, rest, h⟩ := List.exists_cons_of_ne_nil hne
    have hnext : rrNext N P c = some ((c + 1 + j₀) % N) := by
      rw [rrNext_eq_head, h]
      rfl
    have hstep : rrStep N P c = (c + 1 + j₀) % N := by
      rw [rrStep, hnext]
      rfl
    have hc2 : (c + 1 + j₀) % N < N := Nat.mod_lt _ hN
    have hshift := readyOffsets_shift N P c j₀ rest hc h
    have hm2 : m ≤ rest.length := by
      rw [h] at hm
      simpa using hm
    have hmlen : m ≤ (readyOffsets N P ((c + 1 + j₀) % N)).length := by
      rw [hshift]
      simp
      omega
    have hs := readyOffsets_sorted N P c
    rw [h, List.sorted_cons] at hs
    have hrest_mem : ∀ j ∈ rest, j < N := by
      intro j hj
      have hmm : j ∈ readyOffsets N P c := by rw [h]; exact List.mem_cons_of_mem _ hj
      exact ((mem_readyOffsets N P c j).mp hmm).1
    show rrNext N P c :: rrDecisions N P (rrStep N P c) m = _
    rw [hnext, hstep, ih _ hc2 hmlen, h, List.take_succ_cons, List.map_cons, hshift]
    rw [List.take_append_eq_append_take]
    have htake0 : m - (rest.map (fun j => j - (j₀ + 1))).length = 0 := by
      rw [List.length_map]
      omega
    rw [htake0]
    simp only [List.take_zero, List.append_nil]
    rw [← List.map_take, List.map_map]
    refine congrArg _ ?_
    refine List.map_congr_left ?_
    intro j hj
    have hjr : j ∈ rest := List.take_subset m rest hj
    have hjgt : j₀ < j := hs.1 j hjr
    have hjN : j < N := hrest_mem j hjr
    show some (((c + 1 + j₀) % N + 1 + (j - (j₀ + 1))) % N) = some ((c + 1 + j) % N)
    rw [Nat.add_assoc ((c + 1 + j₀) % N) 1 (j - (j₀ + 1)), Nat.mod_add_mod]
    have hback : c + 1 + j₀ + (1 + (j - (j₀ + 1))) = c + 1 + j := by omega
    rw [hback]

theorem exists_offset (N c x : Nat) (hN : 0 < N) (hx : x < N) :
    ∃ j, j < N ∧ (c + 1 + j) % N = x := by
  refine ⟨(x + N - (c + 1) % N) % N, Nat.mod_lt _ hN, ?_⟩
  have h1 : (c + 1 + (x + N - (c + 1) % N) % N) % N =
      ((c + 1) % N + (x + N - (c + 1) % N) % N) % N := by
    rw [Nat.mod_add_mod]
  rw [h1, Nat.add_comm ((c + 1) % N) _, Nat.mod_add_mod]
  have ha : (c + 1) % N < N := Nat.mod_lt _ hN
  have h2 : x + N - (c + 1) % N + (c + 1) % N = x + N := by omega
  rw [h2, Nat.add_mod_right, Nat.mod_eq_of_lt hx]

theorem offset_inj (N c j₁ j₂ : Nat) (h1 : j₁ < N) (h2 : j₂ < N)
    (h : (c + 1 + j₁) % N = (c + 1 + j₂) % N) : j₁ = j₂ := by
  have hm : Nat.ModEq N j₁ j₂ := Nat.ModEq.add_left_cancel' (c + 1) h
  unfold Nat.ModEq at hm
  rwa [Nat.mod_eq_of_lt h1, Nat.mod_eq_of_lt h2] at hm

theorem map_offset_perm (N c : Nat) (hN : 0 < N) :
    (((List.range N).map fun j => (c + 1 + j) % N).Perm (List.range N)) := by
  have hnod : ((List.range N).map fun j => (c + 1 + j) % N).Nodup := by
    refine List.Nodup.map_on ?_ (List.nodup_range N)
    intro x hx y hy hxy
    rw [List.mem_range] at hx hy
    exact offset_inj N c x y hx hy hxy
  refine (List.perm_ext_iff_of_nodup hnod (List.nodup_range N)).mpr ?_
  intro x
  rw [List.mem_map, List.mem_range]
  constructor
  · rintro ⟨j, hj, rfl⟩
    exact Nat.mod_lt _ hN
  · intro hx
    obtain ⟨j, hj, hfj⟩ := exists_offset N c x hN hx
    exact ⟨j, List.mem_range.mpr hj, hfj⟩

theorem readyOffsets_length (N : Nat) (P : Nat → Bool) (c : Nat) (hN : 0 < N) :
    (readyOffsets N P c).length = ((List.range N).filter P).length := by
  unfold readyOffsets
  rw [← List.countP_eq_length_filter, ← List.countP_eq_length_filter]
  have h1 : (List.range N).countP (fun j => P ((c + 1 + j) % N)) =
      ((List.range N).map fun j => (c + 1 + j) % N).countP P := by
    rw [List.countP_map]
    rfl
  rw [h1]
  exact (map_offset_perm N c hN).countP_eq P

theorem countP_eq_one_of_mem_nodup {α : Type} (p : α → Bool) :
    ∀ (l : List α), l.Nodup → ∀ a ∈ l, p a = true →
      (∀ b ∈ l, p b = true → b = a) → l.countP p = 1 := by
  intro l
  induction l with
  | nil => intro _ a ha; cases ha
  | cons x l ih =>
    intro hnod a ha hpa huniq
    rw [List.countP_cons]
    rcases List.mem_cons.mp ha with rfl | hal
    · have hzero : l.countP p = 0 := by
        rw [List.countP_eq_zero]
        intro b hb hpb
        have hba := huniq b (List.mem_cons_of_mem _ hb) hpb
        subst hba
        exact (List.nodup_cons.mp hnod).1 hb
      rw [hzero, hpa]
      rfl
    · have hx : p x = false := by
        cases hpx : p x with
        | false => rfl
        | true =>
          have hxa := huniq x (List.mem_cons_self _ _) hpx
          subst hxa
          exact absurd hal (List.nodup_cons.mp hnod).1
      rw [hx]
      have hrec := ih (List.nodup_cons.mp hnod).2 a hal hpa
        (fun b hb hpb => huniq b (List.mem_cons_of_mem _ hb) hpb)
      rw [hrec]
      simp

theorem readyOffsets_map_count (N : Nat) (P : Nat → Bool) (c r : Nat)
    (hN : 0 < N) (hr : r < N) (hP : P r = true) :
    (((readyOffsets N P c).map fun j => some ((c + 1 + j) % N)).count
      (some r)) = 1 := by
  have hnod : ((readyOffsets N P c).map fun j => some ((c + 1 + j) % N)).Nodup := by
    refine List.Nodup.map_on ?_ (readyOffsets_nodup N P c)
    intro x hx y hy hxy
    rw [mem_readyOffsets] at hx hy
    exact offset_inj N c x y hx.1 hy.1 (Option.some.inj hxy)
  have hmem : some r ∈ (readyOffsets N P c).map fun j => some ((c + 1 + j) % N) := by
    rw [List.mem_map]
    obtain ⟨j, hj, hfj⟩ := exists_offset N c r hN hr
    refine ⟨j, (mem_readyOffsets N P c j).mpr ⟨hj, ?_⟩, by rw [hfj]⟩
    rw [hfj]
    exact hP
  show (((readyOffsets N P c).map fun j => some ((c + 1 + j) % N)).countP
      (fun x => x == some r)) = 1
  refine countP_eq_one_of_mem_nodup _ _ hnod (some r) hmem ?_ ?_
  · exact beq_self_eq_true _
  · intro b hb hpb
    exact eq_of_beq hpb

theorem rrNext_isReady (N : Nat) (P : Nat → Bool) (c i : Nat)
    (h : rrNext N P c = some i) : P i = true := by
  unfold rrNext at h
  cases hf : (List.range' 1 N).find? (fun o => P ((c + o) % N)) with
  | none => rw [hf] at h; cases h
  | some o =>
    rw [hf] at h
    have hpo := List.find?_some hf
    have hio : (c + o) % N = i := Option.some.inj h
    rwa [hio] at hpo

/-! ## Connection between the state dispatch and the pure search -/

theorem find_next_eq_rrNext (s : KernelState) (c : Nat) :
    find_next_task_index s c = rrNext MAX_TASK (isReadyB s) c := rfl

theorem isReadyB_saveCurrent (s : KernelState) (ctx : InterruptContext)
    (h : ReadySetStable s) (t : Nat) :
    isReadyB (saveCurrent s ctx) t = isReadyB s t := by
  unfold ReadySetStable at h
  cases hcc : s.contexts s.current_task with
  | none => simp [saveCurrent, hcc]
  | some c0 =>
    have hready : isReadyB s s.current_task = true := by
      rcases h with hnone | hr
      · rw [hnone] at hcc; cases hcc
      · exact hr
    by_cases ht : t = s.current_task
    · subst ht
      have hc0 : c0.ready = true := by
        unfold isReadyB at hready
        rw [hcc] at hready
        exact hready
      simp [saveCurrent, hcc, isReadyB, updFn, hc0]
    · simp [saveCurrent, hcc, isReadyB, updFn, ht]

theorem isReadyB_congr (s₁ s₂ : KernelState) (h : s₁.contexts = s₂.contexts)
    (t : Nat) : isReadyB s₁ t = isReadyB s₂ t := by
  unfold isReadyB
  rw [h]

theorem saveCurrent_current (s : KernelState) (ctx : InterruptContext) :
    (saveCurrent s ctx).current_task = s.current_task := by
  unfold saveCurrent
  cases s.contexts s.current_task <;> rfl

theorem saveCurrent_start_info (s : KernelState) (ctx : InterruptContext) :
    (saveCurrent s ctx).start_info = s.start_info := by
  unfold saveCurrent
  cases s.contexts s.current_task <;> rfl

theorem saveCurrent_stackMem (s : KernelState) (ctx : InterruptContext) :
    (saveCurrent s ctx).stackMem = s.stackMem := by
  unfold saveCurrent
  cases s.contexts s.current_task <;> rfl

theorem saveCurrent_contexts_ne (s : KernelState) (ctx : InterruptContext)
    (t : Nat) (ht : t ≠ s.current_task) :
    (saveCurrent s ctx).contexts t = s.contexts t := by
  unfold saveCurrent
  cases s.contexts s.current_task with
  | none => rfl
  | some c0 => simp [updFn, ht]

theorem saveCurrent_contexts_none (s : KernelState) (ctx : InterruptContext)
    (h : s.contexts s.current_task = none) :
    saveCurrent s ctx = s := by
  unfold saveCurrent
  rw [h]

theorem dispatch_fst_contexts (s : KernelState) (ctx : InterruptContext) :
    (timer_interrupt_dispatch s ctx).1.contexts = (saveCurrent s ctx).contexts := by
  simp only [timer_interrupt_dispatch]
  cases hf : find_next_task_index (saveCurrent s ctx) s.current_task with
  | none => rfl
  | some idx =>
    dsimp only
    cases (saveCurrent s ctx).contexts idx <;> rfl

theorem dispatch_fst_start_info (s : KernelState) (ctx : InterruptContext) :
    (timer_interrupt_dispatch s ctx).1.start_info = (saveCurrent s ctx).start_info := by
  simp only [timer_interrupt_dispatch]
  cases hf : find_next_task_index (saveCurrent s ctx) s.current_task with
  | none => rfl
  | some idx =>
    dsimp only
    cases (saveCurrent s ctx).contexts idx <;> rfl

theorem dispatch_fst_stackMem (s : KernelState) (ctx : InterruptContext) :
    (timer_interrupt_dispatch s ctx).1.stackMem = (saveCurrent s ctx).stackMem := by
  simp only [timer_interrupt_dispatch]
  cases hf : find_next_task_index (saveCurrent s ctx) s.current_task with
  | none => rfl
  | some idx =>
    dsimp only
    cases (saveCurrent s ctx).contexts idx <;> rfl

theorem dispatch_current_of_decision (s : KernelState) (ctx : InterruptContext)
    (i : Nat) (h : dispatchDecision s ctx = some i) :
    (timer_interrupt_dispatch s ctx).1.current_task = i := by
  unfold dispatchDecision at h
  simp only [timer_interrupt_dispatch]
  rw [h]
  dsimp only
  cases (saveCurrent s ctx).contexts i <;> rfl

theorem dispatch_current_of_no_decision (s : KernelState) (ctx : InterruptContext)
    (h : dispatchDecision s ctx = none) :
    (timer_interrupt_dispatch s ctx).1 = saveCurrent s ctx := by
  unfold dispatchDecision at h
  simp only [timer_interrupt_dispatch]
  rw [h]

theorem dispatch_char (s : KernelState) (ctx : InterruptContext)
    (h : ReadySetStable s) :
    (timer_interrupt_dispatch s ctx).1.current_task
        = rrStep MAX_TASK (isReadyB s) s.current_task ∧
    (∀ t, isReadyB (timer_interrupt_dispatch s ctx).1 t = isReadyB s t) ∧
    ReadySetStable (timer_interrupt_dispatch s ctx).1 ∧
    dispatchDecision s ctx = rrNext MAX_TASK (isReadyB s) s.current_task := by
  have hfun : isReadyB (saveCurrent s ctx) = isReadyB s :=
    funext (isReadyB_saveCurrent s ctx h)
  have hdec : dispatchDecision s ctx = rrNext MAX_TASK (isReadyB s) s.current_task := by
    unfold dispatchDecision
    rw [find_next_eq_rrNext, hfun]
  have hready_res : ∀ t, isReadyB (timer_interrupt_dispatch s ctx).1 t = isReadyB s t := by
    intro t
    rw [isReadyB_congr _ (saveCurrent s ctx) (dispatch_fst_contexts s ctx) t]
    exact isReadyB_saveCurrent s ctx h t
  have hstable_save : ReadySetStable (saveCurrent s ctx) := by
    unfold ReadySetStable
    rw [saveCurrent_current]
    cases hcc : s.contexts s.current_task with
    | none =>
      left
      rw [saveCurrent_contexts_none s ctx hcc]
      exact hcc
    | some c0 =>
      right
      simp [saveCurrent, hcc, isReadyB, updFn]
  refine ⟨?_, hready_res, ?_, hdec⟩
  · cases hf : dispatchDecision s ctx with
    | none =>
      have hres := dispatch_current_of_no_decision s ctx hf
      have hrr : rrNext MAX_TASK (isReadyB s) s.current_task = none := by
        rw [← hdec]
        exact hf
      rw [hres, saveCurrent_current]
      unfold rrStep
      rw [hrr]
      rfl
    | some idx =>
      have hrr : rrNext MAX_TASK (isReadyB s) s.current_task = some idx := by
        rw [← hdec]
        exact hf
      have hct := dispatch_current_of_decision s ctx idx hf
      rw [hct]
      unfold rrStep
      rw [hrr]
      rfl
  · cases hf : dispatchDecision s ctx with
    | none =>
      rw [dispatch_current_of_no_decision s ctx hf]
      exact hstable_save
    | some idx =>
      have hrr : rrNext MAX_TASK (isReadyB s) s.current_task = some idx := by
        rw [← hdec]
        exact hf
      unfold ReadySetStable
      right
      rw [dispatch_current_of_decision s ctx idx hf, hready_res idx]
      exact rrNext_isReady MAX_TASK (isReadyB s) s.current_task idx hrr

theorem dispatchDecisions_eq_rr :
    ∀ (m : Nat) (s : KernelState) (ctx : InterruptContext), ReadySetStable s →
      dispatchDecisions s ctx m =
        rrDecisions MAX_TASK (isReadyB s) s.current_task m := by
  intro m
  induction m with
  | zero => intro s ctx h; rfl
  | succ m ih =>
    intro s ctx h
    obtain ⟨hct, hready, hstable, hdec⟩ := dispatch_char s ctx h
    show dispatchDecision s ctx ::
        dispatchDecisions (timer_interrupt_dispatch s ctx).1
          (timer_interrupt_dispatch s ctx).2 m = _
    rw [hdec, ih _ _ hstable, funext hready, hct]
    rfl

theorem dispatch_snd_of_no_decision (s : KernelState) (ctx : InterruptContext)
    (h : dispatchDecision s ctx = none) :
    (timer_interrupt_dispatch s ctx).2 = ctx := by
  unfold dispatchDecision at h
  simp only [timer_interrupt_dispatch]
  rw [h]

theorem dispatch_snd_of_decision (s : KernelState) (ctx : InterruptContext)
    (i : Nat) (tc : TaskContext) (h : dispatchDecision s ctx = some i)
    (hcc : (saveCurrent s ctx).contexts i = some tc) :
    (timer_interrupt_dispatch s ctx).2 = tc.regs := by
  unfold dispatchDecision at h
  simp only [timer_interrupt_dispatch]
  rw [h]
  dsimp only
  rw [hcc]

theorem offset_ne_self (N c o : Nat) (hc : c < N) (h1 : 1 ≤ o) (h2 : o < N) :
    (c + o) % N ≠ c := by
  intro h
  have hcmod : (c + o) % N = (c + 0) % N := by
    rw [h, Nat.add_zero, Nat.mod_eq_of_lt hc]
  have hm : Nat.ModEq N o 0 := Nat.ModEq.add_left_cancel' c hcmod
  unfold Nat.ModEq at hm
  rw [Nat.mod_eq_of_lt h2, Nat.zero_mod] at hm
  omega

theorem offset_self (N c : Nat) (hc : c < N) : (c + N) % N = c := by
  rw [Nat.add_mod_right, Nat.mod_eq_of_lt hc]

theorem empty_slot_never_selected :
    ∀ (n : Nat) (s : KernelState) (ctx : InterruptContext) (i : Nat),
      s.contexts i = none →
      some i ∉ dispatchDecisions s ctx n ∧
      (dispatchIter s ctx n).1.contexts i = none := by
  intro n
  induction n with
  | zero =>
    intro s ctx i h
    exact ⟨by simp [dispatchDecisions], h⟩
  | succ n ih =>
    intro s ctx i h
    have hsave : (saveCurrent s ctx).contexts i = none := by
      by_cases hic : i = s.current_task
      · subst hic
        rw [saveCurrent_contexts_none s ctx h]
        exact h
      · rw [saveCurrent_contexts_ne s ctx i hic]
        exact h
    have hdecne : dispatchDecision s ctx ≠ some i := by
      intro hd
      have hready : isReadyB (saveCurrent s ctx) i = true := by
        unfold dispatchDecision at hd
        rw [find_next_eq_rrNext] at hd
        exact rrNext_isReady MAX_TASK (isReadyB (saveCurrent s ctx)) s.current_task i hd
      unfold isReadyB at hready
      rw [hsave] at hready
      cases hready
    have hnext : (timer_interrupt_dispatch s ctx).1.contexts i = none := by
      rw [dispatch_fst_contexts]
      exact hsave
    obtain ⟨ih1, ih2⟩ :=
      ih (timer_interrupt_dispatch s ctx).1 (timer_interrupt_dispatch s ctx).2 i hnext
    refine ⟨?_, ih2⟩
    show some i ∉ dispatchDecision s ctx ::
      dispatchDecisions (timer_interrupt_dispatch s ctx).1
        (timer_interrupt_dispatch s ctx).2 n
    rw [List.mem_cons]
    rintro (hd | hmem)
    · exact hdecne hd.symm
    · exact ih1 hmem

theorem allocate_slot_eq (env : MachineEnv) (s : KernelState) (entry id slot : Nat)
    (s₂ : KernelState) (h : allocate_slot env s entry id = some (slot, s₂)) :
    (1 ≤ slot ∧ slot < MAX_TASK ∧ s.contexts slot = none ∧
      ∀ t, 1 ≤ t → t < slot → s.contexts t ≠ none) ∧
    s₂.contexts = updFn s.contexts slot
      (some (TaskContext.for_entry env.trampolineAddr
        (init_task_stack env s slot).1 env.cs env.ss)) ∧
    s₂.start_info = updFn s.start_info slot (some ⟨entry, id⟩) ∧
    s₂.current_task = s.current_task ∧
    s₂.stackMem = updFn s.stackMem (init_task_stack env s slot).1 0 := by
  unfold allocate_slot at h
  cases hf : (List.range' 1 (MAX_TASK - 1)).find? (fun t => (s.contexts t).isNone) with
  | none => rw [hf] at h; cases h
  | some slot2 =>
    rw [hf] at h
    dsimp only at h
    have h2 := Option.some.inj h
    have hslot : slot2 = slot := congrArg Prod.fst h2
    subst hslot
    have hst := congrArg Prod.snd h2
    dsimp only at hst
    rw [find?_range'_eq_some] at hf
    obtain ⟨hf1, hf2, hf3, hf4⟩ := hf
    have hnone : s.contexts slot2 = none := Option.isNone_iff_eq_none.mp hf3
    refine ⟨⟨hf1, by omega, hnone, ?_⟩, ?_, ?_, ?_, ?_⟩
    · intro t ht1 ht2 htn
      have hfalse := hf4 t ht1 ht2
      rw [htn] at hfalse
      cases hfalse
    · rw [← hst]
      rfl
    · rw [← hst]
      rfl
    · rw [← hst]
      rfl
    · rw [← hst]
      rfl

theorem startSlots_fills (env : MachineEnv) :
    ∀ (m j : Nat) (s : KernelState),
      1 ≤ j → j + m = MAX_TASK →
      (∀ t, 1 ≤ t → t < j → s.contexts t ≠ none) →
      (∀ t, j ≤ t → t < MAX_TASK → s.contexts t = none) →
      ∃ s₂, startSlots env m s = some (List.range' j m, s₂) ∧
        (∀ t, 1 ≤ t → t < MAX_TASK → s₂.contexts t ≠ none) ∧
        s₂.contexts 0 = s.contexts 0 := by
  intro m
  induction m with
  | zero =>
    intro j s hj hjm hocc hfree
    refine ⟨s, rfl, ?_, rfl⟩
    intro t ht1 ht2
    exact hocc t ht1 (by omega)
  | succ m ih =>
    intro j s hj hjm hocc hfree
    have hfreej : s.contexts j = none := hfree j (Nat.le_refl j) (by omega)
    have halloc : ∃ s1, allocate_slot env s 0 0 = some (j, s1) := by
      cases hal : allocate_slot env s 0 0 with
      | none =>
        exfalso
        unfold allocate_slot at hal
        cases hf : (List.range' 1 (MAX_TASK - 1)).find?
            (fun t => (s.contexts t).isNone) with
        | some p => rw [hf] at hal; dsimp only at hal; cases hal
        | none =>
          rw [find?_range'_eq_none] at hf
          have hfj := hf j hj (by omega)
          rw [hfreej] at hfj
          cases hfj
      | some p =>
        obtain ⟨⟨hp1, hp2, hp3, hp4⟩, -⟩ :=
          allocate_slot_eq env s 0 0 p.1 p.2 (by rw [hal])
        have hpj : p.1 = j := by
          rcases Nat.lt_trichotomy p.1 j with hlt | heq | hgt
          · exact absurd hp3 (hocc p.1 hp1 hlt)
          · exact heq
          · exact absurd hfreej (hp4 j hj hgt)
        refine ⟨p.2, ?_⟩
        have hpeta : p = (j, p.2) := by
          rw [← hpj]
        exact congrArg some hpeta
    obtain ⟨s1, hal⟩ := halloc
    obtain ⟨⟨-, hjlt, -, -⟩, hctx, -, -, -⟩ := allocate_slot_eq env s 0 0 j s1 hal
    have hocc1 : ∀ t, 1 ≤ t → t < j + 1 → s1.contexts t ≠ none := by
      intro t ht1 ht2
      rw [hctx]
      unfold updFn
      by_cases htj : t = j
      · simp [htj]
      · simp only [if_neg htj]
        exact hocc t ht1 (by omega)
    have hfree1 : ∀ t, j + 1 ≤ t → t < MAX_TASK → s1.contexts t = none := by
      intro t ht1 ht2
      rw [hctx]
      unfold updFn
      rw [if_neg (by omega)]
      exact hfree t (by omega) ht2
    obtain ⟨s₂, hrun, hocc2, h02⟩ := ih (j + 1) s1 (by omega) (by omega) hocc1 hfree1
    refine ⟨s₂, ?_, hocc2, ?_⟩
    · show (match Thread.start env (Thread.new 0 0) s with
        | none => none
        | some (t, s1) =>
          match t.slot with
          | none => none
          | some i =>
            match startSlots env m s1 with
            | none => none
            | some (l, s2) => some (i :: l, s2)) = some (List.range' j (m + 1), s₂)
      have hstart : Thread.start env (Thread.new 0 0) s =
          some ({ entry := 0, id := 0, slot := some j }, s1) := by
        unfold Thread.start Thread.new
        dsimp only
        rw [hal]
      rw [hstart]
      dsimp only
      rw [hrun]
      dsimp only
      rw [List.range'_succ]
    · rw [h02, hctx]
      unfold updFn
      rw [if_neg (by omega)]

/-! ## Claim C1 -/

/-- Claim C1 as stated is false on the code: the dispatch search in
`find_next_task_index` performs no validation of any saved stack handle.
Here slot 1 is occupied and ready but its saved frame stack pointer is
null (the spec's validation rejects it), yet the dispatch search selects
slot 1 instead of skipping it. -/
theorem c1_counterexample :
    find_next_task_index c1State 0 = some 1 ∧
    ((c1State.contexts 1).map fun tc =>
      specValidHandle env0 1 tc.regs.frame.stack_pointer) = some false := by
  decide

/-- Claim C1 (amended): a candidate slot is selected only by being
occupied with its ready flag set; the search inspects nothing else — it
is invariant under any change of the saved register contents (in
particular of saved stack pointers), so no candidate is ever skipped on
handle grounds. -/
theorem c1_dispatch_ignores_stack_handles (s : KernelState) (c i : Nat) :
    (find_next_task_index s c = some i → isReadyB s i = true) ∧
    (∀ s₂ : KernelState, (∀ t, isReadyB s t = isReadyB s₂ t) →
      find_next_task_index s c = find_next_task_index s₂ c) := by
  constructor
  · intro h
    rw [find_next_eq_rrNext] at h
    exact rrNext_isReady MAX_TASK (isReadyB s) c i h
  · intro s₂ hpt
    rw [find_next_eq_rrNext, find_next_eq_rrNext, funext hpt]

/-- Witness for C1's amended theorem at the concrete bad-handle state. -/
theorem c1_witness : isReadyB c1State 1 = true :=
  (c1_dispatch_ignores_stack_handles c1State 0 1).1 (by decide)

/-! ## Claim C2 -/

/-- Claim C2 as stated is false on the code: the six dispatch decisions
from the scenario state are 1, 2, 3, 0, 1, 2 — not 1, 2, 3, 1, 2, 3 —
and slot 0 is selected again at the fourth decision, when the
round-robin scan wraps past the end of the table. -/
theorem c2_counterexample :
    dispatchDecisions c2State InterruptContext.zeroed 6 ≠
      [some 1, some 2, some 3, some 1, some 2, some 3] ∧
    some 0 ∈ dispatchDecisions c2State InterruptContext.zeroed 6 := by
  decide

/-- Claim C2 (amended): with tasks of ids 1, 2, 3 started into slots
1, 2, 3 and dispatch beginning from `current_task = 0`, six successive
dispatch decisions select the slot sequence 1, 2, 3, 0, 1, 2: slot 0,
made ready when the first dispatch saves the caller's context, re-enters
the rotation each time the scan wraps around the table. -/
theorem c2_amended_sequence :
    dispatchDecisions c2State InterruptContext.zeroed 6 =
      [some 1, some 2, some 3, some 0, some 1, some 2] := by
  decide

/-! ## Claim C3 -/

/-- Claim C3 as stated is false on the code: after `init` the reserved
slot 0 is occupied by `TaskContext::empty()`, whose ready flag is false,
not set. -/
theorem c3_counterexample :
    (init bootState).contexts 0 = some TaskContext.empty ∧
    TaskContext.empty.ready = false := by
  decide

/-- Claim C3 (amended): after `init` on the boot state every task slot
and every start-info entry is empty except slot 0, which is occupied but
with its ready flag clear (it first becomes ready when the initial timer
interrupt saves the caller's context), and `current_task` is 0. -/
theorem c3_init_state :
    (init bootState).current_task = 0 ∧
    (init bootState).contexts 0 = some TaskContext.empty ∧
    TaskContext.empty.ready = false ∧
    (∀ i, i ≠ 0 → (init bootState).contexts i = none) ∧
    (∀ i, (init bootState).start_info i = none) := by
  refine ⟨rfl, by decide, rfl, ?_, ?_⟩
  · intro i hi
    show updFn bootState.contexts 0 (some TaskContext.empty) i = none
    unfold updFn
    rw [if_neg hi]
    rfl
  · intro i
    show updFn bootState.start_info 0 none i = none
    unfold updFn
    by_cases hi : i = 0
    · rw [if_pos hi]
    · rw [if_neg hi]
      rfl

/-- Witness for C3's amended theorem at a concrete nonzero slot. -/
theorem c3_witness :
    (init bootState).contexts 7 = none ∧ (init bootState).start_info 7 = none :=
  ⟨c3_init_state.2.2.2.1 7 (by decide), c3_init_state.2.2.2.2 7⟩

/-! ## Claim C8 -/

/-- Claim C8: `start()` is idempotent — on a handle that is already
registered it returns immediately, changing neither any slot, nor any
start-info entry, nor the handle's recorded slot index (the returned
handle and state are exactly the inputs), so no second slot is consumed. -/
theorem c8_start_idempotent (env : MachineEnv) (t : Thread) (s : KernelState)
    (i : Nat) (h : t.slot = some i) :
    Thread.start env t s = some (t, s) := by
  unfold Thread.start
  rw [h]

/-- Witness for C8 at a concrete registered handle. -/
theorem c8_witness :
    Thread.start env0 (Thread.mk 0 7 (some 3)) bootState =
      some (Thread.mk 0 7 (some 3), bootState) :=
  c8_start_idempotent env0 (Thread.mk 0 7 (some 3)) bootState 3 rfl

/-! ## Claim C10 -/

/-- Claim C10: a dispatch decision mutates at most `current_task`, the
slot-table entry at the incoming `current_task` index, and the passed-in
context record: every other slot's context, every start-info entry and
all private stack memory are unchanged; and when the incoming current
slot is empty the dispatch leaves it empty instead of re-occupying it
with the just-saved state. -/
theorem c10_dispatch_frame (s : KernelState) (ctx : InterruptContext) :
    (∀ i, i ≠ s.current_task →
      (timer_interrupt_dispatch s ctx).1.contexts i = s.contexts i) ∧
    ((timer_interrupt_dispatch s ctx).1.start_info = s.start_info) ∧
    ((timer_interrupt_dispatch s ctx).1.stackMem = s.stackMem) ∧
    (s.contexts s.current_task = none →
      (timer_interrupt_dispatch s ctx).1.contexts s.current_task = none) := by
  refine ⟨?_, ?_, ?_, ?_⟩
  · intro i hi
    rw [dispatch_fst_contexts]
    exact saveCurrent_contexts_ne s ctx i hi
  · rw [dispatch_fst_start_info, saveCurrent_start_info]
  · rw [dispatch_fst_stackMem, saveCurrent_stackMem]
  · intro h
    rw [dispatch_fst_contexts, saveCurrent_contexts_none s ctx h]
    exact h

/-- Witness for C10: dispatching over an empty current slot leaves the
slot empty. -/
theorem c10_witness :
    (timer_interrupt_dispatch bootState InterruptContext.zeroed).1.contexts 0 = none ∧
    (timer_interrupt_dispatch bootState InterruptContext.zeroed).1.contexts 5 =
      bootState.contexts 5 :=
  ⟨(c10_dispatch_frame bootState InterruptContext.zeroed).2.2.2 rfl,
   (c10_dispatch_frame bootState InterruptContext.zeroed).1 5 (by decide)⟩

/-! ## Claim C6 -/

/-- Claim C6: once a slot is freed — by `stop()` on a registered handle,
or by the entry trampoline's cleanup (`exit_current_task`) when a task's
entry function returns — no later dispatch decision selects that slot,
however many timer interrupts follow, and the slot stays empty (until a
later `start()` would reuse it). -/
theorem c6_freed_never_selected (s : KernelState) (t : Thread) (i n : Nat)
    (ctx : InterruptContext) (hslot : t.slot = some i) :
    ((Thread.stop t s).2.contexts i = none ∧
     some i ∉ dispatchDecisions (Thread.stop t s).2 ctx n ∧
     (dispatchIter (Thread.stop t s).2 ctx n).1.contexts i = none) ∧
    ((exit_current_task s).contexts s.current_task = none ∧
     some s.current_task ∉ dispatchDecisions (exit_current_task s) ctx n ∧
     (dispatchIter (exit_current_task s) ctx n).1.contexts s.current_task = none) := by
  have hstop : (Thread.stop t s).2.contexts i = none := by
    unfold Thread.stop
    rw [hslot]
    show updFn s.contexts i none i = none
    unfold updFn
    rw [if_pos rfl]
  have hexit : (exit_current_task s).contexts s.current_task = none := by
    show updFn s.contexts s.current_task none s.current_task = none
    unfold updFn
    rw [if_pos rfl]
  obtain ⟨h1, h2⟩ := empty_slot_never_selected n (Thread.stop t s).2 ctx i hstop
  obtain ⟨h3, h4⟩ :=
    empty_slot_never_selected n (exit_current_task s) ctx s.current_task hexit
  exact ⟨⟨hstop, h1, h2⟩, hexit, h3, h4⟩

/-- Witness for C6: stopping the registered handle of slot 1 keeps
slot 1 out of the next three dispatch decisions. -/
theorem c6_witness :
    some 1 ∉ dispatchDecisions (Thread.stop (Thread.mk 0 5 (some 1)) wPairState).2
      InterruptContext.zeroed 3 :=
  (c6_freed_never_selected wPairState (Thread.mk 0 5 (some 1)) 1 3
    InterruptContext.zeroed rfl).1.2.1

/-! ## Claim C4 -/

/-- Claim C4: a dispatch decision examines the slot indices
`(current + 1) % N, (current + 2) % N, …` — a list that visits all `N`
slots exactly once — and selects (making it the new `current_task`) the
first visited slot that is occupied and ready; consequently, when the
ready-slot set is stable under dispatch (the current slot empty or
already ready) and has `k` members, the `k` consecutive decisions
enumerate the ready slots in rotation order starting just after the
current slot, each ready slot being selected exactly once. -/
theorem c4_round_robin_fair (s : KernelState) (ctx : InterruptContext)
    (hc : s.current_task < MAX_TASK) :
    (((List.range' 1 MAX_TASK).map fun o => (s.current_task + o) % MAX_TASK).Perm
        (List.range MAX_TASK)) ∧
    (dispatchDecision s ctx =
      ((List.range' 1 MAX_TASK).map fun o => (s.current_task + o) % MAX_TASK).find?
        fun i => isReadyB (saveCurrent s ctx) i) ∧
    (∀ i, dispatchDecision s ctx = some i →
      (timer_interrupt_dispatch s ctx).1.current_task = i) ∧
    (ReadySetStable s →
      dispatchDecisions s ctx (readyCount s) =
        (readyOffsets MAX_TASK (isReadyB s) s.current_task).map
          (fun j => some ((s.current_task + 1 + j) % MAX_TASK)) ∧
      (∀ r, r < MAX_TASK → isReadyB s r = true →
        (dispatchDecisions s ctx (readyCount s)).count (some r) = 1)) := by
  have hvmap : ((List.range' 1 MAX_TASK).map fun o => (s.current_task + o) % MAX_TASK) =
      (List.range MAX_TASK).map fun j => (s.current_task + 1 + j) % MAX_TASK := by
    rw [List.range'_eq_map_range, List.map_map]
    refine List.map_congr_left ?_
    intro j hj
    show (s.current_task + (1 + j)) % MAX_TASK = (s.current_task + 1 + j) % MAX_TASK
    rw [← Nat.add_assoc]
  refine ⟨?_, ?_, ?_, ?_⟩
  · rw [hvmap]
    exact map_offset_perm MAX_TASK s.current_task (by omega)
  · rw [find?_map_list]
    rfl
  · intro i
    exact dispatch_current_of_decision s ctx i
  · intro hst
    have hk : readyCount s =
        (readyOffsets MAX_TASK (isReadyB s) s.current_task).length := by
      unfold readyCount
      rw [readyOffsets_length MAX_TASK (isReadyB s) s.current_task (by omega)]
    have hdd := dispatchDecisions_eq_rr (readyCount s) s ctx hst
    have htake := rrDecisions_eq_take MAX_TASK (isReadyB s) (readyCount s)
      s.current_task hc (by rw [hk])
    constructor
    · rw [hdd, htake, hk, List.take_length]
    · intro r hr hPr
      rw [hdd, htake, hk, List.take_length]
      exact readyOffsets_map_count MAX_TASK (isReadyB s) s.current_task r
        (by omega) hr hPr

/-- Witness for C4 at a concrete two-slot state: the window of two
decisions enumerates slots 1 then 0, each exactly once. -/
theorem c4_witness :
    dispatchDecisions wPairState InterruptContext.zeroed 2 = [some 1, some 0] ∧
    (dispatchDecisions wPairState InterruptContext.zeroed 2).count (some 1) = 1 := by
  have h := c4_round_robin_fair wPairState InterruptContext.zeroed (by decide)
  obtain ⟨hseq, hcount⟩ := h.2.2.2 (Or.inr (by decide))
  have hk : readyCount wPairState = 2 := by decide
  constructor
  · rw [← hk, hseq]
    decide
  · rw [← hk]
    exact hcount 1 (by decide) (by decide)

/-! ## Claim C5 -/

/-- Claim C5: when no slot other than the current one is occupied and
ready, the dispatch hands back the current task's own just-saved context
unchanged — the in-place record still holds exactly the values saved on
entry — and `current_task` is unchanged, so no switch into another
(possibly invalid) candidate occurs. -/
theorem c5_resume_current (s : KernelState) (ctx : InterruptContext)
    (hc : s.current_task < MAX_TASK)
    (h : ∀ i, i ≠ s.current_task → isReadyB s i = false) :
    (timer_interrupt_dispatch s ctx).2 = ctx ∧
    (timer_interrupt_dispatch s ctx).1.current_task = s.current_task := by
  cases hcc : s.contexts s.current_task with
  | none =>
    have hsave := saveCurrent_contexts_none s ctx hcc
    have hnone : dispatchDecision s ctx = none := by
      unfold dispatchDecision
      rw [hsave]
      unfold find_next_task_index
      have hfind : ((List.range' 1 MAX_TASK).find? fun offset =>
          isReadyB s ((s.current_task + offset) % MAX_TASK)) = none := by
        rw [find?_range'_eq_none]
        intro t ht1 ht2
        by_cases hteq : (s.current_task + t) % MAX_TASK = s.current_task
        · rw [hteq]
          unfold isReadyB
          rw [hcc]
        · exact h _ hteq
      rw [hfind]
      rfl
    refine ⟨dispatch_snd_of_no_decision s ctx hnone, ?_⟩
    rw [dispatch_current_of_no_decision s ctx hnone, saveCurrent_current]
  | some c0 =>
    have hcur : isReadyB (saveCurrent s ctx) s.current_task = true := by
      simp [saveCurrent, hcc, isReadyB, updFn]
    have hoth : ∀ i, i ≠ s.current_task → isReadyB (saveCurrent s ctx) i = false := by
      intro i hi
      unfold isReadyB
      rw [saveCurrent_contexts_ne s ctx i hi]
      have hhi := h i hi
      unfold isReadyB at hhi
      exact hhi
    have hdec : dispatchDecision s ctx = some s.current_task := by
      unfold dispatchDecision find_next_task_index
      have hfind : ((List.range' 1 MAX_TASK).find? fun offset =>
          isReadyB (saveCurrent s ctx) ((s.current_task + offset) % MAX_TASK)) =
            some MAX_TASK := by
        rw [find?_range'_eq_some]
        refine ⟨by omega, by omega, ?_, ?_⟩
        · rw [offset_self MAX_TASK s.current_task hc]
          exact hcur
        · intro t ht1 ht2
          exact hoth _ (offset_ne_self MAX_TASK s.current_task t hc ht1 (by omega))
      rw [hfind]
      show some ((s.current_task + MAX_TASK) % MAX_TASK) = some s.current_task
      rw [offset_self MAX_TASK s.current_task hc]
    have hctx2 : (saveCurrent s ctx).contexts s.current_task =
        some { regs := ctx, ready := true } := by
      simp [saveCurrent, hcc, updFn]
    refine ⟨?_, dispatch_current_of_decision s ctx s.current_task hdec⟩
    exact dispatch_snd_of_decision s ctx s.current_task
      { regs := ctx, ready := true } hdec hctx2

/-- Witness for C5 at the freshly initialised state, where only slot 0
is occupied. -/
theorem c5_witness :
    (timer_interrupt_dispatch (init bootState) InterruptContext.zeroed).2 =
      InterruptContext.zeroed ∧
    (timer_interrupt_dispatch (init bootState) InterruptContext.zeroed).1.current_task
      = 0 :=
  c5_resume_current (init bootState) InterruptContext.zeroed (by decide)
    (by
      intro i hi
      show isReadyB (init bootState) i = false
      unfold isReadyB
      show (match updFn bootState.contexts 0 (some TaskContext.empty) i with
        | some ctx => ctx.ready
        | none => false) = false
      unfold updFn
      have hi0 : i ≠ 0 := hi
      rw [if_neg hi0]
      rfl)

/-! ## Claim C7 -/

/-- Claim C7: from the freshly initialised table, starting
`MAX_TASK - 1 = 199` distinct unregistered tasks succeeds and fills
slots 1, 2, …, 199 in order — each `allocate_slot` call returning the
first unoccupied slot of the linear scan of indices `1..MAX_TASK`, as
the second conjunct states in general — while starting one more task
finds no free slot and is the fatal capacity error (`allocate_slot`
returns `None`, which `start()` turns into the
`expect("No free task slot")` panic, modelled as `none`), the extra
handle never becoming registered. -/
theorem c7_capacity :
    (∃ sFull, startSlots env0 (MAX_TASK - 1) (init bootState) =
        some (List.range' 1 (MAX_TASK - 1), sFull) ∧
      Thread.start env0 (Thread.new 0 199) sFull = none ∧
      (Thread.new 0 199).slot = none) ∧
    (∀ (env : MachineEnv) (s : KernelState) (entry id slot : Nat) (s₂ : KernelState),
      allocate_slot env s entry id = some (slot, s₂) →
      (1 ≤ slot ∧ slot < MAX_TASK ∧ s.contexts slot = none ∧
        ∀ t, 1 ≤ t → t < slot → s.contexts t ≠ none)) := by
  constructor
  · obtain ⟨sFull, hrun, hocc, -⟩ :=
      startSlots_fills env0 (MAX_TASK - 1) 1 (init bootState) (by omega) (by decide)
        (by intro t h1 h2; omega)
        (by
          intro t ht1 ht2
          show updFn bootState.contexts 0 (some TaskContext.empty) t = none
          unfold updFn
          rw [if_neg (by omega)]
          rfl)
    refine ⟨sFull, hrun, ?_, rfl⟩
    cases hal : allocate_slot env0 sFull 0 199 with
    | none =>
      unfold Thread.start Thread.new
      dsimp only
      rw [hal]
    | some p =>
      exfalso
      obtain ⟨⟨hp1, hp2, hp3, -⟩, -⟩ :=
        allocate_slot_eq env0 sFull 0 199 p.1 p.2 (by rw [hal])
      exact hocc p.1 hp1 hp2 hp3
  · intro env s entry id slot s₂ h
    exact (allocate_slot_eq env s entry id slot s₂ h).1

/-- Witness for C7's general first-free conjunct at the initialised
state, whose first free slot is slot 1. -/
theorem c7_witness :
    ∃ p, allocate_slot env0 (init bootState) 0 1 = some p ∧
      1 ≤ p.1 ∧ p.1 < MAX_TASK ∧ (init bootState).contexts p.1 = none := by
  cases hal : allocate_slot env0 (init bootState) 0 1 with
  | none =>
    exfalso
    have hs : (allocate_slot env0 (init bootState) 0 1).isSome = true := by decide
    rw [hal] at hs
    cases hs
  | some p =>
    obtain ⟨h1, h2, h3, -⟩ :=
      c7_capacity.2 env0 (init bootState) 0 1 p.1 p.2 (by rw [hal])
    exact ⟨p, rfl, h1, h2, h3⟩

/-! ## Claim C9 -/

/-- Claim C9 as stated is false on the code: the saved stack pointer
installed by `start()` into slot 1's initial return frame is
`0x201FF8`, which is not aligned to the Context Record's 16-byte
alignment (it is 8 mod 16), and a full Context Record placed at it would
overrun the stack's top; the pointer does lie inside the slot's private
stack. -/
theorem c9_counterexample :
    ((c9State.contexts 1).map fun tc => tc.regs.frame.stack_pointer) =
      some 0x201FF8 ∧
    ¬(0x201FF8 % CONTEXT_RECORD_ALIGN = 0) ∧
    ¬(0x201FF8 + CONTEXT_RECORD_BYTES ≤ taskStackBase env0 1 + TASK_STACK_SIZE) ∧
    taskStackBase env0 1 ≤ 0x201FF8 := by
  decide

/-- Claim C9 (amended): for every slot populated by `start()` (always a
nonzero slot), the initial return frame's stack pointer lies within that
slot's private stack with the 8 reserved bytes below the stack's top,
and is 8-byte aligned with residue 8 mod 16 (the SysV entry alignment
after the reserved word) — not Context-Record-aligned, and with no room
requirement for a full record, which lives in the static slot table
rather than on the stack; the frame's instruction pointer is the entry
trampoline, its selectors are the current `CS`/`SS`, and its flags value
`initial_task_rflags` has the interrupt-enable bit 9 set. -/
theorem c9_initial_frame (env : MachineEnv) (s : KernelState)
    (entry id slot : Nat) (s₂ : KernelState)
    (h : allocate_slot env s entry id = some (slot, s₂)) :
    1 ≤ slot ∧ slot < MAX_TASK ∧
    ∃ tc, s₂.contexts slot = some tc ∧ tc.ready = true ∧
      tc.regs.frame.instruction_pointer = env.trampolineAddr ∧
      tc.regs.frame.code_segment = env.cs ∧
      tc.regs.frame.stack_segment = env.ss ∧
      tc.regs.frame.cpu_flags = initial_task_rflags ∧
      initial_task_rflags.testBit 9 = true ∧
      taskStackBase env slot ≤ tc.regs.frame.stack_pointer ∧
      tc.regs.frame.stack_pointer + 8 ≤ taskStackBase env slot + TASK_STACK_SIZE ∧
      tc.regs.frame.stack_pointer % 8 = 0 ∧
      tc.regs.frame.stack_pointer % 16 = 8 := by
  obtain ⟨⟨h1, h2, -, -⟩, hctx, -, -, -⟩ := allocate_slot_eq env s entry id slot s₂ h
  refine ⟨h1, h2, ?_⟩
  refine ⟨TaskContext.for_entry env.trampolineAddr
    (init_task_stack env s slot).1 env.cs env.ss, ?_, rfl, rfl, rfl, rfl, rfl,
    by decide, ?_, ?_, ?_, ?_⟩
  · rw [hctx]
    unfold updFn
    rw [if_pos rfl]
  · show taskStackBase env slot ≤ (init_task_stack env s slot).1
    show taskStackBase env slot ≤
      taskStackBase env slot + TASK_STACK_SIZE -
        (taskStackBase env slot + TASK_STACK_SIZE) % 16 - 8
    unfold TASK_STACK_SIZE
    omega
  · show (init_task_stack env s slot).1 + 8 ≤ taskStackBase env slot + TASK_STACK_SIZE
    show taskStackBase env slot + TASK_STACK_SIZE -
        (taskStackBase env slot + TASK_STACK_SIZE) % 16 - 8 + 8 ≤
      taskStackBase env slot + TASK_STACK_SIZE
    unfold TASK_STACK_SIZE
    omega
  · show (init_task_stack env s slot).1 % 8 = 0
    show (taskStackBase env slot + TASK_STACK_SIZE -
        (taskStackBase env slot + TASK_STACK_SIZE) % 16 - 8) % 8 = 0
    unfold TASK_STACK_SIZE
    omega
  · show (init_task_stack env s slot).1 % 16 = 8
    show (taskStackBase env slot + TASK_STACK_SIZE -
        (taskStackBase env slot + TASK_STACK_SIZE) % 16 - 8) % 16 = 8
    unfold TASK_STACK_SIZE
    omega

/-- Witness for C9's amended theorem at the concrete first allocation. -/
theorem c9_witness :
    ∃ p, allocate_slot env0 (init bootState) 0 1 = some p ∧
      1 ≤ p.1 ∧ p.1 < MAX_TASK ∧
      ∃ tc, p.2.contexts p.1 = some tc ∧ tc.ready = true ∧
        tc.regs.frame.instruction_pointer = env0.trampolineAddr ∧
        tc.regs.frame.code_segment = env0.cs ∧
        tc.regs.frame.stack_segment = env0.ss ∧
        tc.regs.frame.cpu_flags = initial_task_rflags ∧
        initial_task_rflags.testBit 9 = true ∧
        taskStackBase env0 p.1 ≤ tc.regs.frame.stack_pointer ∧
        tc.regs.frame.stack_pointer + 8 ≤ taskStackBase env0 p.1 + TASK_STACK_SIZE ∧
        tc.regs.frame.stack_pointer % 8 = 0 ∧
        tc.regs.frame.stack_pointer % 16 = 8 := by
  cases hal : allocate_slot env0 (init bootState) 0 1 with
  | none =>
    exfalso
    have hs : (allocate_slot env0 (init bootState) 0 1).isSome = true := by decide
    rw [hal] at hs
    cases hs
  | some p =>
    exact ⟨p, rfl, c9_initial_frame env0 (init bootState) 0 1 p.1 p.2 (by rw [hal])⟩
